import Mathlib

/-!
Verification development for the `discord-ext-audiorec` voice library
(Rust sources under `src/`).  The definitions below are shallow embeddings
of the corresponding Rust items; machine integers are modelled as `Nat`
with explicit `% 2 ^ w` where wraparound matters, byte buffers as
`List Nat`, `f32`/`f64` quantities as `ℚ`, and fallible operations as
`Option`/`Except`.
-/

/-! ## Connection state (`src/state.rs`)

`ConnectionState` is the enum declared at `state.rs` lines 39-47.  It has
exactly the six variants written there: `Disconnected`, `Connected`,
`Playing`, `Recording`, `Paused`, `Finished`.  (Other source files refer
to a `ConnectionState::RecordFinished` variant, but no such variant is
declared in `state.rs`.) -/
inductive ConnectionState where
  | Disconnected : ConnectionState
  | Connected : ConnectionState
  | Playing : ConnectionState
  | Recording : ConnectionState
  | Paused : ConnectionState
  | Finished : ConnectionState
deriving DecidableEq, Fintype

/-! ## Encryption modes and mode negotiation (`src/payload.rs`, `src/ws.rs`) -/

/-- The `EncryptionMode` enum of `payload.rs` lines 196-200. -/
inductive EncryptionMode where
  | XSalsa20Poly1305 : EncryptionMode
  | XSalsa20Poly1305Suffix : EncryptionMode
  | XSalsa20Poly1305Lite : EncryptionMode
deriving DecidableEq, Fintype

/-- `impl Default for EncryptionMode` (`payload.rs` lines 202-206). -/
def EncryptionMode.default : EncryptionMode := EncryptionMode.XSalsa20Poly1305

/-- `EncryptionMode::from_str` (`payload.rs` lines 211-221); the `Err`
outcome is modelled as `none`.  The Rust `match` on the string is an
if-chain over the three literal patterns. -/
def parseEncryptionMode (s : String) : Option EncryptionMode :=
  if s = "xsalsa20_poly1305" then some EncryptionMode.XSalsa20Poly1305
  else if s = "xsalsa20_poly1305_lite" then some EncryptionMode.XSalsa20Poly1305Lite
  else if s = "xsalsa20_poly1305_suffix" then some EncryptionMode.XSalsa20Poly1305Suffix
  else none

/-- `Ready::get_encryption_mode` (`payload.rs` lines 132-139):
`self.modes.iter().filter_map(|m| m.parse().ok()).collect()`. -/
def getEncryptionModes (modes : List String) : List EncryptionMode :=
  modes.filterMap parseEncryptionMode

/-- The mode selection performed by `VoiceGateway::handle_ready`
(`ws.rs` lines 142-146):
`ready.get_encryption_mode().first().copied().unwrap_or_default()`. -/
def negotiatedEncryption (modes : List String) : EncryptionMode :=
  (getEncryptionModes modes).head?.getD EncryptionMode.default

/-- Spec-side recognizer, following the spec's words: a mode name is
recognized exactly when it is one of `xsalsa20_poly1305`,
`xsalsa20_poly1305_suffix`, `xsalsa20_poly1305_lite`. -/
def specRecognizeMode (s : String) : Option EncryptionMode :=
  if s = "xsalsa20_poly1305" then some EncryptionMode.XSalsa20Poly1305
  else if s = "xsalsa20_poly1305_suffix" then some EncryptionMode.XSalsa20Poly1305Suffix
  else if s = "xsalsa20_poly1305_lite" then some EncryptionMode.XSalsa20Poly1305Lite
  else none

/-- Spec-side negotiation, following the spec's words: the first entry of
`Ready.modes` (in list order) that is recognized, and Standard
(`xsalsa20_poly1305`) when no entry is recognized. -/
def specNegotiate : List String → EncryptionMode
  | [] => EncryptionMode.XSalsa20Poly1305
  | m :: rest =>
    match specRecognizeMode m with
    | some e => e
    | none => specNegotiate rest

/-! ## Errors (`src/error.rs`) -/

/-- The `DiscordError` enum (`error.rs` lines 18-52).  Payloads carried
only for shape: external error types become `Unit`, the opcode is `Nat`
(a `u8`), the close code `Nat` (a `u16`). -/
inductive DiscordError where
  | BuilderMissingRequiredField : String → DiscordError
  | TlsConnectorCreationFailed : Unit → DiscordError
  | IoError : Unit → DiscordError
  | InvalidDnsName : Unit → DiscordError
  | WebsocketHandshakeFailed : Unit → DiscordError
  | TungsteniteError : Unit → DiscordError
  | SerdeError : Unit → DiscordError
  | InvalidOpCode : Nat → DiscordError
  | AddrParseFailed : Unit → DiscordError
  | ConnectionClosed : Nat → DiscordError
  | EncryptionError : Unit → DiscordError
  | OpusError : Unit → DiscordError
  | WavFileError : Unit → DiscordError
deriving DecidableEq

/-- The Python exception classes created in `error.rs` lines 8-14. -/
inductive PyExc where
  | MissingFieldError : PyExc
  | InternalError : PyExc
  | InternalIOError : PyExc
  | TlsError : PyExc
  | GatewayError : PyExc
  | TryReconnect : PyExc
  | EncryptionFailed : PyExc
deriving DecidableEq

/-- `impl From<DiscordError> for PyErr` (`error.rs` lines 54-76).  The
guarded arm `ConnectionClosed(c) if ![1000, 4014, 4015].contains(&c)`
followed by the unguarded `ConnectionClosed(_)` arm is rendered as an
if-then-else on the membership test. -/
def pyErrOf : DiscordError → PyExc
  | DiscordError.BuilderMissingRequiredField _ => PyExc.MissingFieldError
  | DiscordError.TlsConnectorCreationFailed _ => PyExc.InternalError
  | DiscordError.IoError _ => PyExc.InternalIOError
  | DiscordError.InvalidDnsName _ => PyExc.InternalError
  | DiscordError.WebsocketHandshakeFailed _ => PyExc.TlsError
  | DiscordError.TungsteniteError _ => PyExc.GatewayError
  | DiscordError.SerdeError _ => PyExc.InternalError
  | DiscordError.InvalidOpCode _ => PyExc.GatewayError
  | DiscordError.AddrParseFailed _ => PyExc.GatewayError
  | DiscordError.ConnectionClosed c =>
    if c ∈ ([1000, 4014, 4015] : List Nat) then PyExc.GatewayError else PyExc.TryReconnect
  | DiscordError.EncryptionError _ => PyExc.EncryptionFailed
  | DiscordError.OpusError _ => PyExc.InternalError
  | DiscordError.WavFileError _ => PyExc.InternalIOError

/-- What one iteration of the spawned loop in `VoiceConnection::run`
(`connection.rs` lines 37-62) does with the result of `gateway.poll()`
(after the signal check succeeded): `Ok` continues the loop; an error
matching `ConnectionClosed(code) if code != 1000 && code != 4014 &&
code != 4015` resolves the future with success (`set_result` of `None`);
every other error resolves it with the exception `e.into()`. -/
inductive RunAction where
  | continueLoop : RunAction
  | finishSuccess : RunAction
  | finishException : PyExc → RunAction
deriving DecidableEq

/-- The poll-result dispatch of `VoiceConnection::run`
(`connection.rs` lines 48-60). -/
def runStep : Option DiscordError → RunAction
  | none => RunAction.continueLoop
  | some e =>
    match e with
    | DiscordError.ConnectionClosed code =>
      if code ≠ 1000 ∧ code ≠ 4014 ∧ code ≠ 4015 then RunAction.finishSuccess
      else RunAction.finishException (pyErrOf e)
    | _ => RunAction.finishException (pyErrOf e)

/-! ## Inbound payload parsing (`src/payload.rs`) -/

/-- `Ready` payload (`payload.rs` lines 122-129). -/
structure ReadyPayload where
  ssrc : Nat
  ip : String
  port : Nat
  modes : List String
deriving DecidableEq

/-- `SessionDescription` payload (`payload.rs` lines 159-162). -/
structure SessionDescriptionPayload where
  mode : String
  secretKey : List Nat
deriving DecidableEq

/-- `Speaking` payload (`payload.rs` lines 165-167). -/
structure SpeakingPayload where
  speaking : Nat
deriving DecidableEq

/-- Model of the `serde_json::value::Value` carried in the `d` field of a
`RawPayload`: a value either embeds one of the inbound payload shapes or
is some other JSON value, and `serde_json::from_value::<T>` succeeds
exactly when the value embeds a `T`.  This stands in for the external
`serde` machinery driven by the `Deserialize` derives in `payload.rs`. -/
inductive DValue where
  | ready : ReadyPayload → DValue
  | sessionDescription : SessionDescriptionPayload → DValue
  | speaking : SpeakingPayload → DValue
  | heartbeatAck : Nat → DValue
  | hello : ℚ → DValue
  | resumed : DValue
  | clientConnect : DValue
  | clientDisconnect : DValue
  | other : DValue
deriving DecidableEq

/-- `RawPayload` (`payload.rs` lines 42-45): `{ op: u8, d: Value }`. -/
structure RawPayload where
  op : Nat
  d : DValue
deriving DecidableEq

/-- The inbound half of the `OpCode` enum (`payload.rs` lines 14-39). -/
inductive OpCodeMsg where
  | Ready : ReadyPayload → OpCodeMsg
  | SessionDescription : SessionDescriptionPayload → OpCodeMsg
  | Speaking : SpeakingPayload → OpCodeMsg
  | HeartbeatAck : Nat → OpCodeMsg
  | Hello : ℚ → OpCodeMsg
  | Resumed : OpCodeMsg
  | ClientConnect : OpCodeMsg
  | ClientDisconnect : OpCodeMsg
deriving DecidableEq

/-- The operation code each inbound `OpCode` variant is produced from
(the comments at `payload.rs` lines 15-38). -/
def opTagOf : OpCodeMsg → Nat
  | OpCodeMsg.Ready _ => 2
  | OpCodeMsg.SessionDescription _ => 4
  | OpCodeMsg.Speaking _ => 5
  | OpCodeMsg.HeartbeatAck _ => 6
  | OpCodeMsg.Hello _ => 8
  | OpCodeMsg.Resumed => 9
  | OpCodeMsg.ClientConnect => 12
  | OpCodeMsg.ClientDisconnect => 13

/-- `OpCode::from_message` (`payload.rs` lines 48-62) after the outer
string parse: dispatch on `payload.op`; a `serde_json::from_value`
failure surfaces as `SerdeError` (the `?` operator), any unlisted code
returns `Err(DiscordError::InvalidOpCode(code))`.  The Rust `match` on
`u8` literals is rendered as an if-chain. -/
def fromMessage (p : RawPayload) : Except DiscordError OpCodeMsg :=
  if p.op = 2 then
    match p.d with
    | DValue.ready r => Except.ok (OpCodeMsg.Ready r)
    | _ => Except.error (DiscordError.SerdeError ())
  else if p.op = 4 then
    match p.d with
    | DValue.sessionDescription s => Except.ok (OpCodeMsg.SessionDescription s)
    | _ => Except.error (DiscordError.SerdeError ())
  else if p.op = 5 then
    match p.d with
    | DValue.speaking s => Except.ok (OpCodeMsg.Speaking s)
    | _ => Except.error (DiscordError.SerdeError ())
  else if p.op = 6 then
    match p.d with
    | DValue.heartbeatAck n => Except.ok (OpCodeMsg.HeartbeatAck n)
    | _ => Except.error (DiscordError.SerdeError ())
  else if p.op = 8 then
    match p.d with
    | DValue.hello h => Except.ok (OpCodeMsg.Hello h)
    | _ => Except.error (DiscordError.SerdeError ())
  else if p.op = 9 then
    match p.d with
    | DValue.resumed => Except.ok OpCodeMsg.Resumed
    | _ => Except.error (DiscordError.SerdeError ())
  else if p.op = 12 then
    match p.d with
    | DValue.clientConnect => Except.ok OpCodeMsg.ClientConnect
    | _ => Except.error (DiscordError.SerdeError ())
  else if p.op = 13 then
    match p.d with
    | DValue.clientDisconnect => Except.ok OpCodeMsg.ClientDisconnect
    | _ => Except.error (DiscordError.SerdeError ())
  else
    Except.error (DiscordError.InvalidOpCode p.op)

/-- The set of recognized inbound operation codes. -/
def inboundOps : List Nat := [2, 4, 5, 6, 8, 9, 12, 13]

/-! ## Claim theorems (first group) -/

/-- C5: the shared state cell's type.  The claim asserts a closed
seven-value set including `RecordFinished`; the `ConnectionState` enum
declared in `state.rs` has exactly the six values below and no
`RecordFinished` variant (even though `connection.rs` line 163 and
`recorder.rs` line 455 refer to one). -/
theorem connectionState_has_six_values :
    Fintype.card ConnectionState = 6 ∧
      ∀ s : ConnectionState,
        s ∈ ([ConnectionState.Disconnected, ConnectionState.Connected,
              ConnectionState.Playing, ConnectionState.Recording,
              ConnectionState.Paused, ConnectionState.Finished] : List ConnectionState) := by
  constructor
  · decide
  · intro s
    cases s <;> decide

/-- C2: close-code handling in `VoiceConnection::run`.  The claim says
codes 1000, 4014, 4015 complete the future with success and every other
code with a `TryReconnect` error; the code does the opposite: 1000, 4014
and 4015 raise a `GatewayError` exception, while any other close code
(such as 4006) resolves the future with success. -/
theorem runStep_close_code_inverted :
    runStep (some (DiscordError.ConnectionClosed 1000)) =
        RunAction.finishException PyExc.GatewayError ∧
      runStep (some (DiscordError.ConnectionClosed 4014)) =
        RunAction.finishException PyExc.GatewayError ∧
      runStep (some (DiscordError.ConnectionClosed 4015)) =
        RunAction.finishException PyExc.GatewayError ∧
      runStep (some (DiscordError.ConnectionClosed 4006)) = RunAction.finishSuccess ∧
      pyErrOf (DiscordError.ConnectionClosed 4006) = PyExc.TryReconnect := by
  refine ⟨by decide, by decide, by decide, by decide, by decide⟩

/-- C6: the encryption mode negotiated on Ready equals the first entry of
`Ready.modes` (in list order) recognized as one of the three mode names,
and is Standard (`xsalsa20_poly1305`) when no entry is recognized. -/
theorem negotiatedEncryption_eq_spec :
    ∀ modes : List String, negotiatedEncryption modes = specNegotiate modes := by
  intro modes
  induction modes with
  | nil => rfl
  | cons m rest ih =>
    have hrec : parseEncryptionMode m = specRecognizeMode m := by
      unfold parseEncryptionMode specRecognizeMode
      by_cases h1 : m = "xsalsa20_poly1305"
      · simp [h1]
      · by_cases h2 : m = "xsalsa20_poly1305_lite"
        · subst h2; simp
        · by_cases h3 : m = "xsalsa20_poly1305_suffix"
          · subst h3; simp
          · simp [h1, h2, h3]
    cases hp : parseEncryptionMode m with
    | none =>
      have hs : specRecognizeMode m = none := by rw [← hrec, hp]
      have h1 : negotiatedEncryption (m :: rest) = negotiatedEncryption rest := by
        show (getEncryptionModes (m :: rest)).head?.getD EncryptionMode.default =
          (getEncryptionModes rest).head?.getD EncryptionMode.default
        unfold getEncryptionModes
        rw [List.filterMap_cons, hp]
      have h2 : specNegotiate (m :: rest) = specNegotiate rest := by
        show (match specRecognizeMode m with
              | some e => e
              | none => specNegotiate rest) = specNegotiate rest
        rw [hs]
      rw [h1, h2]
      exact ih
    | some e =>
      have hs : specRecognizeMode m = some e := by rw [← hrec, hp]
      have h1 : negotiatedEncryption (m :: rest) = e := by
        show (getEncryptionModes (m :: rest)).head?.getD EncryptionMode.default = e
        unfold getEncryptionModes
        rw [List.filterMap_cons, hp]
        rfl
      have h2 : specNegotiate (m :: rest) = e := by
        show (match specRecognizeMode m with
              | some e => e
              | none => specNegotiate rest) = e
        rw [hs]
      rw [h1, h2]

/-- Helper for C7: every operation code outside the recognized list fails
with `InvalidOpCode`. -/
lemma fromMessage_invalid (p : RawPayload) (hnot : p.op ∉ inboundOps) :
    fromMessage p = Except.error (DiscordError.InvalidOpCode p.op) := by
  have h2 : p.op ≠ 2 := by intro h; exact hnot (by simp [inboundOps, h])
  have h4 : p.op ≠ 4 := by intro h; exact hnot (by simp [inboundOps, h])
  have h5 : p.op ≠ 5 := by intro h; exact hnot (by simp [inboundOps, h])
  have h6 : p.op ≠ 6 := by intro h; exact hnot (by simp [inboundOps, h])
  have h8 : p.op ≠ 8 := by intro h; exact hnot (by simp [inboundOps, h])
  have h9 : p.op ≠ 9 := by intro h; exact hnot (by simp [inboundOps, h])
  have h12 : p.op ≠ 12 := by intro h; exact hnot (by simp [inboundOps, h])
  have h13 : p.op ≠ 13 := by intro h; exact hnot (by simp [inboundOps, h])
  unfold fromMessage
  simp [h2, h4, h5, h6, h8, h9, h12, h13]

/-- Helper for C7: a successful parse forces the operation code into the
recognized list and the produced variant to carry that code. -/
lemma fromMessage_ok_tag (p : RawPayload) (c : OpCodeMsg)
    (hok : fromMessage p = Except.ok c) : p.op ∈ inboundOps ∧ opTagOf c = p.op := by
  have hmem : p.op ∈ inboundOps := by
    by_contra hnot
    rw [fromMessage_invalid p hnot] at hok
    exact absurd hok (by simp)
  refine ⟨hmem, ?_⟩
  rcases p with ⟨op, d⟩
  simp only [inboundOps, List.mem_cons, List.not_mem_nil, or_false] at hmem
  rcases hmem with h | h | h | h | h | h | h | h <;> subst h <;>
    cases d <;> simp_all [fromMessage] <;> subst hok <;> rfl

/-- C7: for every well-formed inbound `{op, d}` object, parsing succeeds
only when `op` is one of 2, 4, 5, 6, 8, 9, 12, 13 (and then yields the
variant whose operation code is `op`); every other `op` fails with
`InvalidOpCode` carrying that code. -/
theorem fromMessage_opcode_dispatch :
    ∀ p : RawPayload,
      (p.op ∉ inboundOps → fromMessage p = Except.error (DiscordError.InvalidOpCode p.op)) ∧
        ∀ c : OpCodeMsg, fromMessage p = Except.ok c → p.op ∈ inboundOps ∧ opTagOf c = p.op := by
  intro p
  exact ⟨fun hnot => fromMessage_invalid p hnot, fun c hok => fromMessage_ok_tag p c hok⟩

/-- Witness for C7: op 3 (an outbound-only code) fails with
`InvalidOpCode 3`, and an op-2 message with an embedded `Ready` payload
parses to the `Ready` variant whose tag is 2. -/
theorem fromMessage_opcode_dispatch_witness :
    fromMessage ⟨3, DValue.other⟩ = Except.error (DiscordError.InvalidOpCode 3) ∧
      ((3 : Nat) ∉ inboundOps) ∧
      ((2 : Nat) ∈ inboundOps ∧ opTagOf (OpCodeMsg.Ready ⟨1, "ip", 4000, []⟩) = 2) := by
  refine ⟨(fromMessage_opcode_dispatch ⟨3, DValue.other⟩).1 (by decide), by decide, ?_⟩
  exact (fromMessage_opcode_dispatch ⟨2, DValue.ready ⟨1, "ip", 4000, []⟩⟩).2
    (OpCodeMsg.Ready ⟨1, "ip", 4000, []⟩) rfl

/-! ## Audio buffer (`src/player.rs`) -/

/-- `AudioBuffer` (`player.rs` lines 85-90): a mutable byte slice, a
logical length, and the capacity (the slice's full length). -/
structure AudioBuffer where
  slice : List Nat
  length : Nat
  capacity : Nat
deriving DecidableEq

/-- `AudioBuffer::new` (`player.rs` lines 93-99): capacity is the whole
slice's length. -/
def audioBufferNew (s : List Nat) (len : Nat) : AudioBuffer :=
  { slice := s, length := len, capacity := s.length }

/-- `AsRef` for `AudioBuffer` (`player.rs` lines 102-106):
`&self.slice[..self.length]`. -/
def audioBufferAsRef (b : AudioBuffer) : List Nat :=
  b.slice.take b.length

/-- `Buffer::extend_from_slice` for `AudioBuffer` (`player.rs` lines
115-123).  The in-place mutation is modelled by returning the result and
the post-call buffer; the `Err` branch leaves the buffer untouched, the
`Ok` branch copies `other` into `slice[length .. length+other.len]` and
adds `other.len` to the logical length. -/
def extendFromSlice (b : AudioBuffer) (other : List Nat) : Except Unit Unit × AudioBuffer :=
  if b.length + other.length > b.capacity then
    (Except.error (), b)
  else
    (Except.ok (),
      { slice := b.slice.take b.length ++ other ++ b.slice.drop (b.length + other.length),
        length := b.length + other.length,
        capacity := b.capacity })

/-- Helper: taking `A.length + n` elements of `A ++ B` keeps all of `A`
and `n` elements of `B`. -/
lemma take_append_len {α : Type} (A B : List α) (n : Nat) :
    (A ++ B).take (A.length + n) = A ++ B.take n := by
  induction A with
  | nil => simp
  | cons a A ih => simp [List.take_cons, Nat.succ_add, ih]

/-- C9: `extend_from_slice` fails and leaves the buffer untouched when
the logical length plus the added slice's length exceeds the capacity;
otherwise it succeeds, appends `other` at the old logical end, and grows
the logical length by exactly `other.length`.  The two side conditions
`capacity = slice.length` and `length ≤ capacity` are the invariants
established by `AudioBuffer::new`. -/
theorem extendFromSlice_spec :
    ∀ (b : AudioBuffer) (other : List Nat),
      (b.length + other.length > b.capacity → extendFromSlice b other = (Except.error (), b)) ∧
        (b.capacity = b.slice.length → b.length ≤ b.capacity →
          b.length + other.length ≤ b.capacity →
            (extendFromSlice b other).1 = Except.ok () ∧
              audioBufferAsRef (extendFromSlice b other).2 = audioBufferAsRef b ++ other ∧
              (extendFromSlice b other).2.length = b.length + other.length) := by
  intro b other
  constructor
  · intro hgt
    unfold extendFromSlice
    rw [if_pos hgt]
  · intro hcap hlen hle
    have hnot : ¬ b.length + other.length > b.capacity := Nat.not_lt.mpr hle
    unfold extendFromSlice
    rw [if_neg hnot]
    refine ⟨rfl, ?_, rfl⟩
    unfold audioBufferAsRef
    have hlenslice : b.length ≤ b.slice.length := le_trans hlen (le_of_eq hcap)
    have htake : (b.slice.take b.length).length = b.length := List.length_take_of_le hlenslice
    calc (b.slice.take b.length ++ other ++ b.slice.drop (b.length + other.length)).take
          (b.length + other.length)
        = ((b.slice.take b.length ++ other) ++ b.slice.drop (b.length + other.length)).take
          ((b.slice.take b.length ++ other).length + 0) := by
          rw [List.length_append, htake, Nat.add_zero]
      _ = (b.slice.take b.length ++ other) ++ (b.slice.drop (b.length + other.length)).take 0 :=
          take_append_len _ _ 0
      _ = b.slice.take b.length ++ other := by simp

/-- Witness for C9: a buffer of capacity 4 holding two bytes accepts a
two-byte extension (contents appended, length 4) and an overfull
extension on a fresh buffer fails unchanged. -/
theorem extendFromSlice_spec_witness :
    (extendFromSlice (audioBufferNew [7, 8, 0, 0] 2) [5, 6]).1 = Except.ok () ∧
      audioBufferAsRef (extendFromSlice (audioBufferNew [7, 8, 0, 0] 2) [5, 6]).2 =
        audioBufferAsRef (audioBufferNew [7, 8, 0, 0] 2) ++ [5, 6] ∧
      (extendFromSlice (audioBufferNew [7, 8, 0, 0] 2) [5, 6]).2.length = 4 ∧
      extendFromSlice (audioBufferNew [7, 8, 0, 0] 2) [5, 6, 9] =
        (Except.error (), audioBufferNew [7, 8, 0, 0] 2) := by
  have h1 := (extendFromSlice_spec (audioBufferNew [7, 8, 0, 0] 2) [5, 6]).2
    (by decide) (by decide) (by decide)
  have h2 := (extendFromSlice_spec (audioBufferNew [7, 8, 0, 0] 2) [5, 6, 9]).1 (by decide)
  exact ⟨h1.1, h1.2.1, h1.2.2, h2⟩

/-! ## RTP header extension offset (`src/recorder.rs`) -/

/-- The per-element loop of `calc_offset` (`recorder.rs` lines 408-415):
read the tag/length byte at `offset`, advance by one, and for a nonzero
byte advance by a further `1 + (0xF & (byte >> 4))`.  Out-of-range reads
are modelled as 0. -/
def extOffsetLoop (data : List Nat) (offset : Nat) : Nat → Nat
  | 0 => offset
  | n + 1 =>
    let byte := data.getD offset 0
    if byte = 0 then extOffsetLoop data (offset + 1) n
    else extOffsetLoop data (offset + 1 + 1 + byte / 16 % 16) n

/-- `calc_offset` (`recorder.rs` lines 401-422): returns 0 unless the
payload starts `0xBE 0xDE` and is longer than 4 bytes; otherwise runs the
tag/length loop from offset 4 over the big-endian extension count, adds 1
when the byte at `offset + 1` is 0 or 2, and returns `offset + 1`.
Out-of-range reads are modelled as 0. -/
def calcOffset (data : List Nat) : Nat :=
  if data.getD 0 0 = 0xBE ∧ data.getD 1 0 = 0xDE ∧ 4 < data.length then
    let extLength := data.getD 2 0 * 256 + data.getD 3 0
    let offset := extOffsetLoop data 4 extLength
    (if data.getD (offset + 1) 0 = 0 ∨ data.getD (offset + 1) 0 = 2 then offset + 1 else offset) + 1
  else 0

/-- The spec's loop, written from the claim's words: "for each of the N
elements read one tag/length byte and advance 1, then if the tag is
nonzero advance a further 1 + (tag>>4 & 0xF)". -/
def specExtLoop (data : List Nat) (offset : Nat) : Nat → Nat
  | 0 => offset
  | n + 1 =>
    let tg := data.getD offset 0
    if tg = 0 then specExtLoop data (offset + 1) n
    else specExtLoop data (offset + 1 + (1 + tg / 16 % 16)) n

/-- The claim's discard count: start at 4, run the loop over the
big-endian two-byte element count, then "advance by 1 only if the byte at
offset+1 is 0 or 2; the resulting offset is the count of bytes
discarded"; zero for a payload not starting `0xBE 0xDE`. -/
def specDiscardCount (data : List Nat) : Nat :=
  if data.getD 0 0 = 0xBE ∧ data.getD 1 0 = 0xDE then
    let n := data.getD 2 0 * 256 + data.getD 3 0
    let offset := specExtLoop data 4 n
    if data.getD (offset + 1) 0 = 0 ∨ data.getD (offset + 1) 0 = 2 then offset + 1 else offset
  else 0

/-- Counterexample for C8: on the 6-byte payload
`BE DE 00 00 09 09` (zero extension elements, final byte not 0 or 2) the
code discards `calcOffset = 5` bytes while the claim's algorithm yields
4, so the claimed equality fails. -/
theorem calcOffset_counterexample :
    calcOffset [0xBE, 0xDE, 0, 0, 9, 9] = 5 ∧
      specDiscardCount [0xBE, 0xDE, 0, 0, 9, 9] = 4 ∧
      calcOffset [0xBE, 0xDE, 0, 0, 9, 9] ≠ specDiscardCount [0xBE, 0xDE, 0, 0, 9, 9] := by
  refine ⟨by decide, by decide, by decide⟩

/-- Helper for C8: the code's tag/length loop and the spec's are the same
function. -/
lemma extOffsetLoop_eq_spec (data : List Nat) :
    ∀ (n offset : Nat), extOffsetLoop data offset n = specExtLoop data offset n := by
  intro n
  induction n with
  | zero => intro offset; rfl
  | succ m ih =>
    intro offset
    unfold extOffsetLoop specExtLoop
    by_cases hb : data.getD offset 0 = 0
    · simp only [hb, if_pos rfl]
      exact ih (offset + 1)
    · simp only [if_neg hb]
      rw [show offset + 1 + 1 + data.getD offset 0 / 16 % 16 =
        offset + 1 + (1 + data.getD offset 0 / 16 % 16) by omega]
      exact ih _

/-- C8 (amended): for a payload starting `0xBE 0xDE` with more than 4
bytes, the number of bytes the code discards is the spec algorithm's
resulting offset plus one; for any other payload (wrong prefix or length
at most 4) zero bytes are discarded. -/
theorem calcOffset_amended :
    ∀ data : List Nat,
      (data.getD 0 0 = 0xBE → data.getD 1 0 = 0xDE → 4 < data.length →
        calcOffset data = specDiscardCount data + 1) ∧
        (¬(data.getD 0 0 = 0xBE ∧ data.getD 1 0 = 0xDE ∧ 4 < data.length) →
          calcOffset data = 0) := by
  intro data
  constructor
  · intro hb hd hlen
    unfold calcOffset specDiscardCount
    rw [if_pos ⟨hb, hd, hlen⟩, if_pos ⟨hb, hd⟩]
    simp only [extOffsetLoop_eq_spec]
  · intro hnot
    unfold calcOffset
    rw [if_neg hnot]

/-- Witness for C8's amended theorem: on `BE DE 00 00 09 09` the code
discards 5 = 4 + 1 bytes; on `[0, 0]` (no extension prefix) it discards
none. -/
theorem calcOffset_amended_witness :
    calcOffset [0xBE, 0xDE, 0, 0, 9, 9] =
        specDiscardCount [0xBE, 0xDE, 0, 0, 9, 9] + 1 ∧
      calcOffset [0, 0] = 0 := by
  exact ⟨(calcOffset_amended [0xBE, 0xDE, 0, 0, 9, 9]).1 (by decide) (by decide) (by decide),
    (calcOffset_amended [0, 0]).2 (by decide)⟩

/-! ## Per-source packet queue (`src/recorder.rs`) -/

/-- The `Packet` tuple (`recorder.rs` lines 154-159):
(payload bytes, payload length, RTP timestamp, RTP sequence,
receive time in seconds).  The `rtp_rs::Seq` value is a `u16` modelled as
a `Nat` below `2 ^ 16`; the `f64` receive time is modelled as `ℚ`. -/
structure RPacket where
  data : List Nat
  size : Nat
  ts : Nat
  seq : Nat
  rtime : ℚ
deriving DecidableEq

/-- `rtp_rs::Seq::next`: the 16-bit successor with wraparound. -/
def seqNext (s : Nat) : Nat := (s + 1) % 65536

/-- `PacketQueue` (`recorder.rs` line 161): the `VecDeque` of packets and
the `Option<Seq>` marker of the last delivered sequence. -/
structure PacketQueue where
  q : List RPacket
  marker : Option Nat
deriving DecidableEq

/-- `PacketResult` (`recorder.rs` lines 163-167). -/
inductive PacketResult where
  | Find : RPacket → PacketResult
  | Dropped : PacketResult
  | End : PacketResult
deriving DecidableEq

/-- Placeholder packet standing in for the value of the source's
`.unwrap()` calls on indices that are always in range (see
`getPacket_shrinks`); it is never actually produced. -/
def dummyPacket : RPacket := { data := [], size := 0, ts := 0, seq := 0, rtime := 0 }

/-- The forward scan of `get_packet` (`recorder.rs` lines 196-206): the
least index `i` with `1 ≤ i < min 1000 rest.length` such that the packet
at position `i` of the remaining queue satisfies
`rest[i].seq.next() == front.seq` (the loop
`for i in 1..1000.min(self.0.len())` with test
`self.0.get(i).unwrap().3.next() == packet.3`). -/
def scanIdx (rest : List RPacket) (frontSeq : Nat) : Option Nat :=
  (List.range (min 1000 rest.length)).find? fun i =>
    decide (1 ≤ i) &&
      match rest.get? i with
      | some x => decide (seqNext x.seq = frontSeq)
      | none => false

/-- `PacketQueue::get_packet` (`recorder.rs` lines 175-214).  With no
marker, pop the front (if any) and set the marker.  With a marker, pop
the front; if its sequence is the marker's successor, deliver it.
Otherwise scan as in `scanIdx`; on a match at `i`, `drain(..i)` the
remaining queue, push elements `0..i-2` of the drained prefix back onto
the front one by one (which reverses their order), deliver the drained
prefix's last element (position `i - 1`) and set the marker to its
sequence.  If the scan fails, return `Dropped` with the popped front
packet discarded and the marker unchanged. -/
def getPacket (pq : PacketQueue) : PacketResult × PacketQueue :=
  match pq.marker with
  | none =>
    match pq.q with
    | [] => (PacketResult.End, pq)
    | p :: rest => (PacketResult.Find p, { q := rest, marker := some p.seq })
  | some seq =>
    match pq.q with
    | [] => (PacketResult.End, pq)
    | p :: rest =>
      if seqNext seq = p.seq then
        (PacketResult.Find p, { q := rest, marker := some p.seq })
      else
        match scanIdx rest p.seq with
        | some i =>
          let delivered := rest.getD (i - 1) dummyPacket
          (PacketResult.Find delivered,
            { q := ((rest.take i).take (i - 1)).reverse ++ rest.drop i,
              marker := some delivered.seq })
        | none => (PacketResult.Dropped, { q := rest, marker := some seq })

/-- A trace item produced by repeatedly calling `get_packet`, as
`AudioDecoder::decode_packets` does: `Find` is recorded by the delivered
packet's sequence. -/
inductive TraceItem where
  | find : Nat → TraceItem
  | dropped : TraceItem
  | ended : TraceItem
deriving DecidableEq

/-- Call `get_packet` repeatedly (at most `fuel` times), recording each
result, and stop at `End`. -/
def getPacketTrace : Nat → PacketQueue → List TraceItem
  | 0, _ => []
  | fuel + 1, pq =>
    match getPacket pq with
    | (PacketResult.Find p, pq2) => TraceItem.find p.seq :: getPacketTrace fuel pq2
    | (PacketResult.Dropped, pq2) => TraceItem.dropped :: getPacketTrace fuel pq2
    | (PacketResult.End, _) => [TraceItem.ended]

/-- A concrete packet with the given sequence (payload and times are
irrelevant to queue ordering). -/
def pktWithSeq (s : Nat) : RPacket :=
  { data := [1, 2, 3], size := 3, ts := s * 960, seq := s, rtime := 0 }

/-- C3: packets with sequences 10, 11, 13, 12, 14 inserted in that
arrival order.  The claim says repeated `get_packet` calls deliver
10, 11, 12, 13, 14 then `End` with no `Dropped`; the code instead
delivers 10, 11, then `Dropped` (discarding packet 13), then 12, then
`Dropped` (discarding packet 14), then `End`. -/
theorem getPacket_trace_10_11_13_12_14 :
    getPacketTrace 10
        { q := [pktWithSeq 10, pktWithSeq 11, pktWithSeq 13, pktWithSeq 12, pktWithSeq 14],
          marker := none } =
      [TraceItem.find 10, TraceItem.find 11, TraceItem.dropped, TraceItem.find 12,
        TraceItem.dropped, TraceItem.ended] := by
  decide

/-- C4: a queue `[13, 12, 14]` with marker 11.  The expected successor 12
(= `marker.next()`) sits at position 1, well inside the 1000-position
lookahead, so the claim requires `Find`; and on `Dropped` the claim
requires the queue to be left unchanged.  The code instead returns
`Dropped` while popping and discarding the front packet 13 (the scan
never matches because it starts at index 1 of the remaining queue and
compares `queue[i].seq.next()` against the popped packet's sequence
instead of looking for `marker.next()`). -/
theorem getPacket_lookahead_violated :
    ((({ q := [pktWithSeq 13, pktWithSeq 12, pktWithSeq 14],
          marker := some 11 } : PacketQueue)).q.get? 1).map RPacket.seq =
        some (seqNext 11) ∧
      getPacket { q := [pktWithSeq 13, pktWithSeq 12, pktWithSeq 14], marker := some 11 } =
        (PacketResult.Dropped,
          { q := [pktWithSeq 12, pktWithSeq 14], marker := some 11 }) := by
  refine ⟨by decide, by decide⟩

/-! ## Cipher suite (`src/payload.rs`, `Encryptor for EncryptionMode`)

The XSalsa20-Poly1305 primitive itself lives in the external
`xsalsa20poly1305` crate.  It is modelled here by an abstract concrete
AEAD with the same interface contract: `encrypt_in_place` replaces the
buffer by a same-length masked ciphertext followed by a 16-byte
authentication tag depending on key, nonce and ciphertext;
`decrypt_in_place` strips and verifies the tag and inverts the mask,
failing on any mismatch.  The mode wrappers below are translated from
`payload.rs` lines 252-328 on top of this primitive. -/

/-- Keystream byte `i` of the model cipher. -/
def ksByte (key nonce : List Nat) (i : Nat) : Nat :=
  (key.sum * 3 + nonce.sum * 5 + i * 7 + 11) % 256

/-- Masking (the "encryption" half of the model AEAD): bytewise addition
of the keystream modulo 256. -/
def maskBytes (key nonce pt : List Nat) : List Nat :=
  pt.mapIdx fun i b => (b + ksByte key nonce i) % 256

/-- Unmasking: bytewise subtraction of the keystream modulo 256. -/
def unmaskBytes (key nonce ct : List Nat) : List Nat :=
  ct.mapIdx fun i b => (b + (256 - ksByte key nonce i)) % 256

/-- The 16-byte authentication tag of the model AEAD. -/
def tagBytes (key nonce ct : List Nat) : List Nat :=
  (List.range 16).map fun j =>
    (key.sum * 7 + nonce.sum * 9 + ct.sum * 13 + ct.length * 17 + j) % 256

/-- Model of `cipher.encrypt_in_place(nonce, b"", buffer)`: ciphertext
followed by the 16-byte tag. -/
def encInPlace (key nonce pt : List Nat) : List Nat :=
  maskBytes key nonce pt ++ tagBytes key nonce (maskBytes key nonce pt)

/-- Model of `cipher.decrypt_in_place(nonce, b"", buffer)`: reject short
buffers and bad tags, otherwise unmask. -/
def decInPlace (key nonce buf : List Nat) : Option (List Nat) :=
  if buf.length < 16 then none
  else
    let ct := buf.take (buf.length - 16)
    let tg := buf.drop (buf.length - 16)
    if tg = tagBytes key nonce ct then some (unmaskBytes key nonce ct) else none

/-- `EncryptionMode::encrypt` (`payload.rs` lines 253-285): build the
24-byte nonce per mode, encrypt the buffer in place, and append the
mode's suffix — the full 24-byte nonce for Standard (lines 262-266), the
full 24 random bytes for Suffix (lines 269-273, the random nonce passed
in as `rngNonce`), the first 4 nonce bytes for Lite (lines 276-280, the
nonce being the big-endian `lite` counter zero-padded). -/
def encryptMode (m : EncryptionMode) (key : List Nat) (lite : Nat) (rngNonce : List Nat)
    (header : List Nat) (pt : List Nat) : List Nat :=
  match m with
  | EncryptionMode.XSalsa20Poly1305 =>
    let nonce := header ++ List.replicate 12 0
    encInPlace key nonce pt ++ nonce
  | EncryptionMode.XSalsa20Poly1305Suffix =>
    let nonce := rngNonce
    encInPlace key nonce pt ++ nonce
  | EncryptionMode.XSalsa20Poly1305Lite =>
    let nonce := [lite / 2 ^ 24 % 256, lite / 2 ^ 16 % 256, lite / 2 ^ 8 % 256, lite % 256] ++
      List.replicate 20 0
    encInPlace key nonce pt ++ nonce.take 4

/-- The full wire packet: `AudioEncoder::prepare_packet`
(`player.rs` lines 195-211) writes the 12-byte RTP header in front of the
ciphertext region, so the datagram is the header followed by
`encryptMode`'s output. -/
def wirePacket (m : EncryptionMode) (key : List Nat) (lite : Nat) (rngNonce : List Nat)
    (header : List Nat) (pt : List Nat) : List Nat :=
  header ++ encryptMode m key lite rngNonce header pt

/-- `EncryptionMode::decrypt` (`payload.rs` lines 287-328): read the
12-byte header from the front, reconstruct the nonce per mode (the
header zero-padded for Standard, the trailing 24 bytes for Suffix, the
trailing 4 bytes zero-padded for Lite), rotate the header out, truncate
by 12 / 36 / 16 bytes respectively, and decrypt in place.  Returns the
recovered plaintext and the 12-byte header. -/
def decryptMode (m : EncryptionMode) (key : List Nat) (buf : List Nat) :
    Option (List Nat × List Nat) :=
  match m with
  | EncryptionMode.XSalsa20Poly1305 =>
    let header := buf.take 12
    let nonce := header ++ List.replicate 12 0
    let rotated := buf.drop 12 ++ buf.take 12
    let truncated := rotated.take (buf.length - 12)
    (decInPlace key nonce truncated).map fun pt => (pt, header)
  | EncryptionMode.XSalsa20Poly1305Suffix =>
    let header := buf.take 12
    let nonce := buf.drop (buf.length - 24)
    let rotated := buf.drop 12 ++ buf.take 12
    let truncated := rotated.take (buf.length - 36)
    (decInPlace key nonce truncated).map fun pt => (pt, header)
  | EncryptionMode.XSalsa20Poly1305Lite =>
    let header := buf.take 12
    let nonce := buf.drop (buf.length - 4) ++ List.replicate 20 0
    let rotated := buf.drop 12 ++ buf.take 12
    let truncated := rotated.take (buf.length - 16)
    (decInPlace key nonce truncated).map fun pt => (pt, header)

/-- A concrete 32-byte key for the C1 evaluation. -/
def c1Key : List Nat := List.replicate 32 1

/-- A concrete 12-byte RTP header for the C1 evaluation. -/
def c1Header : List Nat := [128, 120, 0, 1, 0, 0, 0, 2, 0, 0, 0, 3]

/-- A concrete 24-byte "random" nonce for the Suffix mode evaluation. -/
def c1Rng : List Nat := List.range 24

/-- C1: the cipher round-trip law.  For Suffix and Lite the decrypt of an
encrypt recovers the plaintext and header, but for Standard it fails:
encrypt appends the full 24-byte nonce (`payload.rs` line 266) while
decrypt truncates only the 12 rotated header bytes (line 299), so the
primitive is asked to open the ciphertext with 24 stray bytes attached
and authentication fails.  This refutes the claim for the Standard
mode. -/
theorem encryptMode_roundtrip_standard_fails :
    decryptMode EncryptionMode.XSalsa20Poly1305 c1Key
        (wirePacket EncryptionMode.XSalsa20Poly1305 c1Key 0 c1Rng c1Header [1, 2, 3]) ≠
        some ([1, 2, 3], c1Header) ∧
      decryptMode EncryptionMode.XSalsa20Poly1305 c1Key
          (wirePacket EncryptionMode.XSalsa20Poly1305 c1Key 0 c1Rng c1Header [1, 2, 3]) = none ∧
      decryptMode EncryptionMode.XSalsa20Poly1305Suffix c1Key
          (wirePacket EncryptionMode.XSalsa20Poly1305Suffix c1Key 0 c1Rng c1Header [1, 2, 3]) =
        some ([1, 2, 3], c1Header) ∧
      decryptMode EncryptionMode.XSalsa20Poly1305Lite c1Key
          (wirePacket EncryptionMode.XSalsa20Poly1305Lite c1Key 5 c1Rng c1Header [1, 2, 3]) =
        some ([1, 2, 3], c1Header) := by
  refine ⟨by decide, by decide, by decide, by decide⟩

/-! ## Finalize decoding (`src/recorder.rs`, `AudioDecoder::decode_packets`)

The Opus decoder lives in the external `audiopus` crate; it is modelled
as an abstract stateful oracle.  `decodeFloat st input cap` stands for
`opus.decode_float(input, &mut output[..cap], false)`: on success it
yields the per-channel sample count together with the contents of the
1920-float output buffer after the call, on failure `none`;
`lastPacketDuration` stands for `opus.last_packet_duration()`. -/
structure OpusDec (σ : Type) where
  decodeFloat : σ → Option (List Nat) → Nat → Option (Nat × List ℚ) × σ
  lastPacketDuration : σ → Option Nat

/-- Stand-in for `std::f64::MAX`, the initial `start_time` of
`decode_packets` (`recorder.rs` line 72). -/
def f64Max : ℚ := 2 ^ 1024

/-- `AudioDecoder::decode_raw` (`recorder.rs` lines 121-131): decode
`data[..size]` into a 1920-float buffer; `unwrap_or(0)` turns a decode
failure into a sample count of 0, and the buffer is truncated to
`count * 2` floats. -/
def decodeRaw {σ : Type} (d : OpusDec σ) (st : σ) (data : List Nat) (size : Nat) :
    List ℚ × σ :=
  match d.decodeFloat st (some (data.take size)) 1920 with
  | (none, st2) => ([], st2)
  | (some (n, out), st2) => (out.take (n * 2), st2)

/-- `AudioDecoder::decode_dropped_frame` (`recorder.rs` lines 133-151):
packet-loss concealment with `last_packet_duration().unwrap_or(960)`
(`SAMPLES_PER_FRAME` = 48000 / 1000 × 20); a zero duration yields no
samples, otherwise decode with null input into `output[..n]` (the slice
capped at the buffer's 1920 floats) and truncate to `count * 2`. -/
def decodeDroppedFrame {σ : Type} (d : OpusDec σ) (st : σ) : List ℚ × σ :=
  if (d.lastPacketDuration st).getD 960 = 0 then ([], st)
  else
    match d.decodeFloat st none (min ((d.lastPacketDuration st).getD 960) 1920) with
    | (none, st2) => ([], st2)
    | (some (n, out), st2) => (out.take (n * 2), st2)

/-- `AudioDecoder::decode_packets` (`recorder.rs` lines 70-119), with an
explicit fuel bound on the number of loop iterations (`none` = fuel
exhausted; `decodePacketsF_total` shows `queue length + 1` iterations
always suffice).  Each iteration takes one `get_packet` result: `Find`
first lowers `start_time` to the packet's receive time; a packet shorter
than 10 bytes only records its timestamp; otherwise, if a previous
timestamp exists and the elapsed time `(ts - last) / 48000` exceeds
0.02 s, zero-sample padding of `⌊4 × (min elapsed 1 − 0.02) × 48000⌋`
floats is appended before the decoded samples.  `Dropped` appends a
concealment frame and clears the timestamp.  `End` returns
`(start_time, pcm)`. -/
def decodePacketsF {σ : Type} (d : OpusDec σ) :
    Nat → σ → PacketQueue → ℚ → Option Nat → List ℚ → Option (ℚ × List ℚ)
  | 0, _, _, _, _, _ => none
  | fuel + 1, st, pq, startTime, lastTs, acc =>
    match getPacket pq with
    | (PacketResult.End, _) => some (startTime, acc)
    | (PacketResult.Dropped, pq2) =>
      let r := decodeDroppedFrame d st
      decodePacketsF d fuel r.2 pq2 startTime none (acc ++ r.1)
    | (PacketResult.Find p, pq2) =>
      let startTime2 := min startTime p.rtime
      if p.size < 10 then
        decodePacketsF d fuel st pq2 startTime2 (some p.ts) acc
      else
        let acc2 :=
          match lastTs with
          | some t =>
            let elapsed : ℚ := ((p.ts : ℚ) - (t : ℚ)) / 48000
            if elapsed > 1 / 50 then
              acc ++ List.replicate (Int.toNat ⌊(4 : ℚ) * (min elapsed 1 - 1 / 50) * 48000⌋) 0
            else acc
          | none => acc
        let r := decodeRaw d st p.data p.size
        decodePacketsF d fuel r.2 pq2 startTime2 (some p.ts) (acc2 ++ r.1)

/-- Helper: a successful scan index is at least 1 and in range. -/
lemma scanIdx_bounds (rest : List RPacket) (fs i : Nat) (h : scanIdx rest fs = some i) :
    1 ≤ i ∧ i < rest.length := by
  unfold scanIdx at h
  have hmem := List.mem_of_find?_eq_some h
  have hpred := List.find?_some h
  rw [Bool.and_eq_true] at hpred
  refine ⟨of_decide_eq_true hpred.1, ?_⟩
  have hrange := List.mem_range.mp hmem
  omega

/-- Helper: every `get_packet` call that does not return `End` strictly
shrinks the queue. -/
lemma getPacket_shrinks (pq : PacketQueue) (r : PacketResult) (pq2 : PacketQueue)
    (h : getPacket pq = (r, pq2)) (hne : r ≠ PacketResult.End) :
    pq2.q.length < pq.q.length := by
  rcases pq with ⟨q, marker⟩
  cases marker with
  | none =>
    cases q with
    | nil =>
      have hh : (PacketResult.End, ({ q := [], marker := none } : PacketQueue)) = (r, pq2) := h
      injection hh with h1 h2
      exact absurd h1.symm hne
    | cons p rest =>
      have hh : (PacketResult.Find p, ({ q := rest, marker := some p.seq } : PacketQueue)) =
        (r, pq2) := h
      injection hh with h1 h2
      rw [← h2]
      simp
  | some seq =>
    cases q with
    | nil =>
      have hh : (PacketResult.End, ({ q := [], marker := some seq } : PacketQueue)) = (r, pq2) := h
      injection hh with h1 h2
      exact absurd h1.symm hne
    | cons p rest =>
      by_cases hs : seqNext seq = p.seq
      · have hh : getPacket { q := p :: rest, marker := some seq } =
          (PacketResult.Find p, { q := rest, marker := some p.seq }) := by
          simp [getPacket, hs]
        rw [h] at hh
        injection hh with h1 h2
        rw [h2]
        simp
      · cases hscan : scanIdx rest p.seq with
        | none =>
          have hh : getPacket { q := p :: rest, marker := some seq } =
            (PacketResult.Dropped, { q := rest, marker := some seq }) := by
            simp [getPacket, hs, hscan]
          rw [h] at hh
          injection hh with h1 h2
          rw [h2]
          simp
        | some i =>
          obtain ⟨hi1, hi2⟩ := scanIdx_bounds rest p.seq i hscan
          have hh : getPacket { q := p :: rest, marker := some seq } =
            (PacketResult.Find (rest.getD (i - 1) dummyPacket),
              { q := ((rest.take i).take (i - 1)).reverse ++ rest.drop i,
                marker := some (rest.getD (i - 1) dummyPacket).seq }) := by
            simp [getPacket, hs, hscan]
          rw [h] at hh
          injection hh with h1 h2
          rw [h2]
          simp only [PacketQueue.mk.injEq] at *
          simp [List.length_append, List.length_reverse, List.length_take, List.length_drop]
          omega

/-- Helper: `queue length + 1` iterations of fuel always suffice for
`decodePacketsF` — the loop of `decode_packets` terminates on every
queue. -/
lemma decodePacketsF_total {σ : Type} (d : OpusDec σ) :
    ∀ (n : Nat) (pq : PacketQueue), pq.q.length < n →
      ∀ (st : σ) (startTime : ℚ) (lastTs : Option Nat) (acc : List ℚ),
        (decodePacketsF d n st pq startTime lastTs acc).isSome = true := by
  intro n
  induction n with
  | zero =>
    intro pq h
    exact absurd h (Nat.not_lt_zero _)
  | succ m ih =>
    intro pq hlen st startTime lastTs acc
    rcases hgp : getPacket pq with ⟨r, pq2⟩
    cases r with
    | End =>
      simp [decodePacketsF, hgp]
    | Dropped =>
      have hlt := getPacket_shrinks pq _ _ hgp (by simp)
      simp only [decodePacketsF, hgp]
      exact ih pq2 (by omega) _ _ _ _
    | Find p =>
      have hlt := getPacket_shrinks pq _ _ hgp (by simp)
      have hlen2 : pq2.q.length < m := by omega
      simp only [decodePacketsF, hgp]
      by_cases hsize : p.size < 10
      · rw [if_pos hsize]
        exact ih pq2 hlen2 _ _ _ _
      · rw [if_neg hsize]
        exact ih pq2 hlen2 _ _ _ _

/-- C10: finalize decoding is total.  For every opus-decoder oracle,
every decoder state and every queue contents, the `decode_packets` loop
completes within `queue length + 1` iterations and produces its
`(start_time, pcm)` pair — its return type has no error component — and a
per-packet Opus decode failure (in `decode_raw`, or in the concealment
path `decode_dropped_frame`) contributes an empty PCM vector instead of
aborting. -/
theorem decodePackets_total (σ : Type) (d : OpusDec σ) (st : σ) (pq : PacketQueue) :
    (decodePacketsF d (pq.q.length + 1) st pq f64Max none []).isSome = true ∧
      (∀ (st2 : σ) (data : List Nat) (size : Nat),
        (d.decodeFloat st2 (some (data.take size)) 1920).1 = none →
          (decodeRaw d st2 data size).1 = []) ∧
      (∀ st2 : σ,
        ((d.lastPacketDuration st2).getD 960 = 0 ∨
            (d.decodeFloat st2 none (min ((d.lastPacketDuration st2).getD 960) 1920)).1 = none) →
          (decodeDroppedFrame d st2).1 = []) := by
  refine ⟨decodePacketsF_total d (pq.q.length + 1) pq (by omega) st f64Max none [], ?_, ?_⟩
  · intro st2 data size hnone
    unfold decodeRaw
    rcases hd2 : d.decodeFloat st2 (some (data.take size)) 1920 with ⟨res, st3⟩
    rw [hd2] at hnone
    simp at hnone
    subst hnone
    rfl
  · intro st2 hor
    unfold decodeDroppedFrame
    by_cases hn : (d.lastPacketDuration st2).getD 960 = 0
    · rw [if_pos hn]
    · rw [if_neg hn]
      rcases hor with h0 | hfail
      · exact absurd h0 hn
      · rcases hd2 : d.decodeFloat st2 none (min ((d.lastPacketDuration st2).getD 960) 1920)
          with ⟨res, st3⟩
        rw [hd2] at hfail
        simp at hfail
        subst hfail
        rfl

/-- An always-failing opus oracle, for the C10 witness. -/
def failDec : OpusDec Unit :=
  { decodeFloat := fun _ _ _ => (none, ()), lastPacketDuration := fun _ => none }

/-- Witness for C10: with an always-failing opus decoder and a one-packet
queue, the loop still completes and both decode paths contribute empty
PCM. -/
theorem decodePackets_total_witness :
    (decodePacketsF failDec 2 () { q := [pktWithSeq 10], marker := none }
        f64Max none []).isSome = true ∧
      (decodeRaw failDec () [1, 2, 3] 3).1 = [] ∧
      (decodeDroppedFrame failDec ()).1 = [] := by
  obtain ⟨h1, h2, h3⟩ :=
    decodePackets_total Unit failDec () { q := [pktWithSeq 10], marker := none }
  exact ⟨h1, h2 () [1, 2, 3] 3 rfl, h3 () (Or.inr rfl)⟩
